import Mathlib

/-!
# Verification of the CTD metadata pipeline (`oceanograpy/data/ctd.py`)

A shallow embedding of the metadata-handling functions of `ctd.py`:
attribute dictionaries are association lists (Python dicts preserve
insertion order), datasets carry coordinate variables, data variables and
global attributes, and fallible xarray operations (`rename_vars`, `drop`,
variable indexing) return `Except`.  Numeric data is modelled by `ℚ`.
The static schema module `_standard_attrs` is not part of the given
sources; the canonical attribute orderings it provides are therefore
passed as explicit list parameters.
-/

namespace OceanograPy

/-- An attribute value: a string or a number (Python str / float). -/
inductive AttrValue where
  | str (s : String)
  | num (q : ℚ)
deriving DecidableEq, Repr

/-- How a value is rendered into a file name (Python f-string conversion). -/
def AttrValue.display : AttrValue → String
  | .str s => s
  | .num q => toString q

/-- An ordered attribute dictionary (Python dicts keep insertion order). -/
abbrev Attrs := List (String × AttrValue)

/-- First-match lookup in an attribute dictionary (`d[k]` / `d.get(k)`). -/
def lookupAttr (k : String) : Attrs → Option AttrValue
  | [] => none
  | (k', v) :: rest => if k' = k then some v else lookupAttr k rest

/-- Key-membership test (`k in d` on a Python dict). -/
def hasAttr (k : String) (m : Attrs) : Bool :=
  (lookupAttr k m).isSome

/-- `d[k] = v` on a Python dict: overwrite in place if the key exists
(keeping its position), otherwise append at the end. -/
def setAttr (m : Attrs) (k : String) (v : AttrValue) : Attrs :=
  if m.any (fun p => p.1 = k) then
    m.map (fun p => if p.1 = k then (k, v) else p)
  else m ++ [(k, v)]

/-- One dataset variable: its name, dimension names, data and attributes. -/
structure Var where
  name : String
  dims : List String
  data : List ℚ
  attrs : Attrs
deriving DecidableEq, Repr

/-- An xarray `Dataset`: coordinate variables, data variables and global
attributes.  `D.variables` is modelled as data variables followed by
coordinates. -/
structure Dataset where
  coords : List Var
  data_vars : List Var
  attrs : Attrs
deriving DecidableEq, Repr

/-- Names of the data variables (`list(D.data_vars)`). -/
def Dataset.dataVarNames (D : Dataset) : List String :=
  D.data_vars.map Var.name

/-- Names of the coordinate variables. -/
def Dataset.coordNames (D : Dataset) : List String :=
  D.coords.map Var.name

/-- Names of all variables, data variables and coordinates (`D.variables`). -/
def Dataset.varNames (D : Dataset) : List String :=
  D.dataVarNames ++ D.coordNames

/-- All variables (`D.variables`), data variables then coordinates. -/
def Dataset.variablesList (D : Dataset) : List Var :=
  D.data_vars ++ D.coords

/- ### The attribute reorder utility (`_reorder_list`, ctd.py:430-446) -/

/-- `_reorder_list(input_list, ordered_list)`: the attributes of
`orderedList` that occur in `inputList`, in `orderedList`'s order,
followed by the remaining attributes of `inputList` in their original
order. -/
def reorder_list (inputList orderedList : List String) : List String :=
  let orderedAttributes := orderedList.filter (fun attr => attr ∈ inputList)
  let remainingAttributes := inputList.filter (fun attr => attr ∉ orderedAttributes)
  orderedAttributes ++ remainingAttributes

theorem mem_reorder_list (a : String) (m r : List String) :
    a ∈ reorder_list m r ↔ a ∈ m := by
  simp only [reorder_list, List.mem_append, List.mem_filter]
  constructor
  · rintro (⟨_, h⟩ | ⟨h, _⟩)
    · exact of_decide_eq_true h
    · exact h
  · intro ha
    by_cases hr : a ∈ r
    · exact Or.inl ⟨hr, decide_eq_true ha⟩
    · refine Or.inr ⟨ha, ?_⟩
      simp only [decide_eq_true_eq, List.mem_filter, not_and]
      intro hmem
      exact absurd hmem hr

theorem reorder_list_remaining (m r : List String) :
    m.filter (fun a => a ∉ r.filter (fun b => b ∈ m)) = m.filter (fun a => a ∉ r) := by
  apply List.filter_congr
  intro a ha
  simp [List.mem_filter, ha]

theorem reorder_list_idem (m r : List String) :
    reorder_list (reorder_list m r) r = reorder_list m r := by
  have hmem : ∀ a, a ∈ reorder_list m r ↔ a ∈ m := fun a => mem_reorder_list a m r
  show (r.filter (fun attr => attr ∈ reorder_list m r)) ++
      ((reorder_list m r).filter (fun attr => attr ∉ r.filter (fun b => b ∈ reorder_list m r)))
      = reorder_list m r
  have h1 : r.filter (fun attr => attr ∈ reorder_list m r) =
      r.filter (fun attr => attr ∈ m) := by
    apply List.filter_congr
    intro a _
    simp [hmem a]
  rw [h1]
  show (r.filter (fun attr => attr ∈ m)) ++
      ((r.filter (fun b => b ∈ m)) ++ (m.filter (fun a => a ∉ r.filter (fun b => b ∈ m)))).filter
        (fun attr => attr ∉ r.filter (fun b => b ∈ m)) = reorder_list m r
  rw [List.filter_append]
  have h3 : (r.filter (fun b => b ∈ m)).filter (fun attr => attr ∉ r.filter (fun b => b ∈ m)) = [] := by
    rw [List.filter_eq_nil_iff]
    intro a ha
    simp only [decide_eq_true_eq, not_not]
    exact ha
  have h4 : (m.filter (fun a => a ∉ r.filter (fun b => b ∈ m))).filter
      (fun attr => attr ∉ r.filter (fun b => b ∈ m))
      = m.filter (fun a => a ∉ r.filter (fun b => b ∈ m)) := by
    rw [List.filter_eq_self]
    intro a ha
    exact (List.mem_filter.mp ha).2
  rw [h3, h4]
  rfl

/-- C2: `_reorder_list` is a pure total function whose output has exactly the
key set of the input mapping, and consists of the reference keys present in
the input (in reference order) followed by the input keys absent from the
reference (in their original relative order). -/
theorem reorder_list_spec (M R : List String) :
    (∀ k, k ∈ reorder_list M R ↔ k ∈ M) ∧
    reorder_list M R = R.filter (fun a => a ∈ M) ++ M.filter (fun a => a ∉ R) := by
  constructor
  · exact fun k => mem_reorder_list k M R
  · show R.filter (fun a => a ∈ M) ++ M.filter (fun a => a ∉ R.filter (fun b => b ∈ M))
        = R.filter (fun a => a ∈ M) ++ M.filter (fun a => a ∉ R)
    rw [reorder_list_remaining]

/- ### Rebuilding an attribute dictionary in a given key order
(`reorder_attrs`, ctd.py:398-426: `D.attrs = {}` followed by
`D.attrs[attr_name] = attrs_dict[attr_name]` for each reordered key). -/

/-- Rebuild an attribute dictionary with its keys in the order given by
`reorder_list`: each reordered key is reinserted with its old value. -/
def reorderDict (m : Attrs) (r : List String) : Attrs :=
  (reorder_list (m.map Prod.fst) r).filterMap
    (fun k => (lookupAttr k m).map (fun v => (k, v)))

theorem lookupAttr_eq_none (k : String) (m : Attrs) :
    lookupAttr k m = none ↔ k ∉ m.map Prod.fst := by
  induction m with
  | nil => simp [lookupAttr]
  | cons p rest ih =>
    obtain ⟨k', v⟩ := p
    by_cases hk : k' = k
    · subst hk
      simp [lookupAttr]
    · simp [lookupAttr, hk, ih, Ne.symm hk]

theorem lookupAttr_filterMapLookup (m : Attrs) (k : String) (L : List String) :
    lookupAttr k (L.filterMap (fun k' => (lookupAttr k' m).map (fun v => (k', v)))) =
      if k ∈ L then lookupAttr k m else none := by
  induction L with
  | nil => simp [lookupAttr]
  | cons k₀ L' ih =>
    by_cases hk : k₀ = k
    · subst hk
      cases hlk : lookupAttr k₀ m with
      | none =>
        simp only [List.filterMap_cons, hlk, Option.map_none']
        rw [ih, hlk]
        simp
      | some v =>
        simp only [List.filterMap_cons, hlk, Option.map_some']
        simp [lookupAttr, hlk]
    · have hks : ¬ k = k₀ := fun h => hk h.symm
      cases hlk : lookupAttr k₀ m with
      | none =>
        simp only [List.filterMap_cons, hlk, Option.map_none']
        rw [ih]
        simp [List.mem_cons, hks]
      | some v =>
        simp only [List.filterMap_cons, hlk, Option.map_some']
        rw [lookupAttr, if_neg hk, ih]
        simp [List.mem_cons, hks]

/-- Rebuilding in reordered key order never changes the value found for
any key. -/
theorem lookupAttr_reorderDict (k : String) (m : Attrs) (r : List String) :
    lookupAttr k (reorderDict m r) = lookupAttr k m := by
  rw [reorderDict, lookupAttr_filterMapLookup]
  by_cases hk : k ∈ reorder_list (m.map Prod.fst) r
  · rw [if_pos hk]
  · rw [if_neg hk]
    rw [mem_reorder_list] at hk
    exact ((lookupAttr_eq_none k m).mpr hk).symm

theorem keys_filterMapLookup (m : Attrs) (L : List String)
    (h : ∀ k ∈ L, k ∈ m.map Prod.fst) :
    (L.filterMap (fun k => (lookupAttr k m).map (fun v => (k, v)))).map Prod.fst = L := by
  induction L with
  | nil => simp
  | cons k₀ L' ih =>
    have hk₀ : k₀ ∈ m.map Prod.fst := h k₀ (List.mem_cons_self _ _)
    cases hlk : lookupAttr k₀ m with
    | none =>
      exact absurd ((lookupAttr_eq_none k₀ m).mp hlk) (fun hc => hc hk₀)
    | some v =>
      simp only [List.filterMap_cons, hlk, Option.map_some', List.map_cons]
      rw [ih (fun k hk => h k (List.mem_cons_of_mem _ hk))]

theorem keys_reorderDict (m : Attrs) (r : List String) :
    (reorderDict m r).map Prod.fst = reorder_list (m.map Prod.fst) r := by
  apply keys_filterMapLookup
  intro k hk
  exact (mem_reorder_list k (m.map Prod.fst) r).mp hk

theorem reorderDict_idem (m : Attrs) (r : List String) :
    reorderDict (reorderDict m r) r = reorderDict m r := by
  have hcong : ∀ k ∈ reorder_list (m.map Prod.fst) r,
      (lookupAttr k (reorderDict m r)).map (fun v => (k, v)) =
      (lookupAttr k m).map (fun v => (k, v)) := by
    intro k _
    rw [lookupAttr_reorderDict]
  calc reorderDict (reorderDict m r) r
      = (reorder_list ((reorderDict m r).map Prod.fst) r).filterMap
          (fun k => (lookupAttr k (reorderDict m r)).map (fun v => (k, v))) := rfl
    _ = (reorder_list (m.map Prod.fst) r).filterMap
          (fun k => (lookupAttr k (reorderDict m r)).map (fun v => (k, v))) := by
          rw [keys_reorderDict, reorder_list_idem]
    _ = (reorder_list (m.map Prod.fst) r).filterMap
          (fun k => (lookupAttr k m).map (fun v => (k, v))) := List.filterMap_congr hcong
    _ = reorderDict m r := rfl

/- ### `reorder_attrs` (ctd.py:398-426): reorder the global attribute
dictionary and every data variable's attribute dictionary according to the
canonical orderings from the schema (passed here as parameters, since the
`_standard_attrs` module is outside the given sources). -/

def reorder_attrs (D : Dataset) (globalOrder varOrder : List String) : Dataset :=
  { D with
    attrs := reorderDict D.attrs globalOrder,
    data_vars := D.data_vars.map (fun v => { v with attrs := reorderDict v.attrs varOrder }) }

/-- C3: attribute reordering is idempotent — applying `reorder_attrs` to its
own output is a fixed point, for every dataset and every pair of canonical
reference orderings: the global attribute dictionary and each variable's
attribute dictionary keep identical content and key ordering. -/
theorem reorder_attrs_idem (D : Dataset) (globalOrder varOrder : List String) :
    reorder_attrs (reorder_attrs D globalOrder varOrder) globalOrder varOrder =
      reorder_attrs D globalOrder varOrder := by
  unfold reorder_attrs
  simp only [Dataset.mk.injEq, List.map_map, true_and]
  constructor
  · apply List.map_congr_left
    intro v _
    simp [Function.comp, reorderDict_idem]
  · exact reorderDict_idem _ _

/- ### Variable renaming (`xarray.Dataset.rename_vars`) and the name
normalizer (`remove_numbers_in_names`, ctd.py:362-384). -/

/-- `D.rename_vars({old: new})`.  xarray renames the matching variable
(data variable or coordinate), raising `ValueError` if `old` is not a
variable of the dataset or if the new name collides with another existing
variable name. -/
def Dataset.renameVars (D : Dataset) (old new : String) : Except String Dataset :=
  if old ∉ D.varNames then
    .error ("ValueError: cannot rename " ++ old ++ " because it is not a variable")
  else if new ≠ old ∧ new ∈ D.varNames then
    .error ("ValueError: the new name " ++ new ++ " conflicts")
  else
    .ok { D with
      coords := D.coords.map (fun v => if v.name = old then { v with name := new } else v),
      data_vars := D.data_vars.map (fun v => if v.name = old then { v with name := new } else v) }

/-- `re.sub(r'\d', '', s)`: remove every digit character from `s`. -/
def stripDigits (s : String) : String :=
  String.mk (s.toList.filter (fun c => ¬ c.isDigit))

/-- `remove_numbers_in_names` (ctd.py:362-384): strip digits from data
variable names; a name is skipped when it occurs in the `duplicates` list
of digit-stripped forms that appear more than once (note: the source
compares the *unstripped* name against that list). -/
def remove_numbers_in_names (D : Dataset) : Except String Dataset :=
  let all_varnms := D.dataVarNames
  let varnms_stripped := all_varnms.map stripDigits
  let duplicates := varnms_stripped.filter (fun s => 1 < varnms_stripped.count s)
  all_varnms.foldlM
    (fun Dacc varnm =>
      if varnm ∈ duplicates then pure Dacc
      else Dacc.renameVars varnm (stripDigits varnm))
    D

/-- C1: the claim fails on the code.  With data variables `TEMP1` and
`TEMP2` (a colliding group: both digit-strip to `TEMP`), the claim requires
that neither variable be renamed; the code instead compares the unstripped
names against the list of duplicated *stripped* forms, so both checks pass,
`TEMP1` is renamed to `TEMP`, and the subsequent rename of `TEMP2` to
`TEMP` raises a rename-conflict error. -/
theorem remove_numbers_in_names_collision_bug :
    remove_numbers_in_names
      { coords := [{ name := "TIME", dims := ["TIME"], data := [], attrs := [] },
                   { name := "PRES", dims := ["PRES"], data := [], attrs := [] }],
        data_vars := [{ name := "TEMP1", dims := ["TIME", "PRES"], data := [], attrs := [] },
                      { name := "TEMP2", dims := ["TIME", "PRES"], data := [], attrs := [] }],
        attrs := [] }
      = .error "ValueError: the new name TEMP conflicts" := by
  rfl

theorem map_eq_self_of {α : Type} {l : List α} {f : α → α}
    (h : ∀ a ∈ l, f a = a) : l.map f = l := by
  induction l with
  | nil => rfl
  | cons a rest ih =>
    rw [List.map_cons, h a (List.mem_cons_self _ _), ih (fun b hb => h b (List.mem_cons_of_mem _ hb))]

theorem error_bind {ε α β : Type} (e : ε) (f : α → Except ε β) :
    (Except.error e >>= f) = Except.error e := rfl

theorem ok_bind {ε α β : Type} (a : α) (f : α → Except ε β) :
    (Except.ok a >>= f) = f a := rfl

theorem renameVars_coords (D : Dataset) (old new : String) (D' : Dataset)
    (hold : old ∉ D.coordNames)
    (h : D.renameVars old new = .ok D') : D'.coords = D.coords := by
  unfold Dataset.renameVars at h
  by_cases h1 : old ∉ D.varNames
  · rw [if_pos h1] at h
    exact Except.noConfusion h
  · rw [if_neg h1] at h
    by_cases h2 : new ≠ old ∧ new ∈ D.varNames
    · rw [if_pos h2] at h
      exact Except.noConfusion h
    · rw [if_neg h2] at h
      have := Except.ok.inj h
      rw [← this]
      apply map_eq_self_of
      intro v hv
      have hvne : v.name ≠ old := by
        intro hc
        exact hold (hc ▸ List.mem_map_of_mem Var.name hv)
      rw [if_neg hvne]

theorem rename_fold_coords (dups : List String) (stripFn : String → String) :
    ∀ (ns : List String) (E E' : Dataset),
      (∀ n ∈ ns, n ∉ E.coordNames) →
      (ns.foldlM
        (fun Dacc varnm =>
          if varnm ∈ dups then pure Dacc
          else Dacc.renameVars varnm (stripFn varnm)) E) = .ok E' →
      E'.coords = E.coords := by
  intro ns
  induction ns with
  | nil =>
    intro E E' _ h
    simp only [List.foldlM_nil] at h
    rw [← Except.ok.inj h]
  | cons n ns ih =>
    intro E E' hns h
    simp only [List.foldlM_cons] at h
    by_cases hdup : n ∈ dups
    · rw [if_pos hdup] at h
      rw [pure_bind] at h
      exact ih E E' (fun m hm => hns m (List.mem_cons_of_mem _ hm)) h
    · rw [if_neg hdup] at h
      cases hr : E.renameVars n (stripFn n) with
      | error e =>
        rw [hr, error_bind] at h
        exact Except.noConfusion h
      | ok E1 =>
        rw [hr, ok_bind] at h
        have hc1 : E1.coords = E.coords :=
          renameVars_coords E n (stripFn n) E1 (hns n (List.mem_cons_self _ _)) hr
        have hnames : E1.coordNames = E.coordNames := by
          unfold Dataset.coordNames
          rw [hc1]
        have := ih E1 E' (fun m hm => hnames ▸ hns m (List.mem_cons_of_mem _ hm)) h
        rw [this, hc1]

/-- C10: the name normalizer iterates only over data variable names, so
(under the xarray invariant that data variable names and coordinate names
are disjoint) coordinate variables — the TIME and PRES axes in particular —
are never renamed: whenever `remove_numbers_in_names` returns a dataset,
its coordinate variables (names, dims, data and attributes) are exactly
those of the input. -/
theorem remove_numbers_in_names_coords (D D' : Dataset)
    (hdisj : ∀ n ∈ D.dataVarNames, n ∉ D.coordNames)
    (h : remove_numbers_in_names D = .ok D') : D'.coords = D.coords := by
  unfold remove_numbers_in_names at h
  exact rename_fold_coords _ stripDigits D.dataVarNames D D' hdisj h

/-- Witness for C10 at a concrete dataset: a dataset with coordinates TIME
and PRES and data variable TEMP1 keeps its coordinates unchanged. -/
theorem remove_numbers_in_names_coords_witness :
    (Dataset.mk
      [{ name := "TIME", dims := ["TIME"], data := [], attrs := [] },
       { name := "PRES", dims := ["PRES"], data := [], attrs := [] }]
      [{ name := "TEMP", dims := ["TIME", "PRES"], data := [], attrs := [] }]
      []).coords =
    (Dataset.mk
      [{ name := "TIME", dims := ["TIME"], data := [], attrs := [] },
       { name := "PRES", dims := ["PRES"], data := [], attrs := [] }]
      [{ name := "TEMP1", dims := ["TIME", "PRES"], data := [], attrs := [] }]
      []).coords :=
  remove_numbers_in_names_coords
    (Dataset.mk
      [{ name := "TIME", dims := ["TIME"], data := [], attrs := [] },
       { name := "PRES", dims := ["PRES"], data := [], attrs := [] }]
      [{ name := "TEMP1", dims := ["TIME", "PRES"], data := [], attrs := [] }]
      [])
    (Dataset.mk
      [{ name := "TIME", dims := ["TIME"], data := [], attrs := [] },
       { name := "PRES", dims := ["PRES"], data := [], attrs := [] }]
      [{ name := "TEMP", dims := ["TIME", "PRES"], data := [], attrs := [] }]
      [])
    (by decide) (by rfl)

/- ### Dropping variables (`xarray.Dataset.drop` and `drop_variables`,
ctd.py:278-311). -/

/-- `D.drop(names)`: remove the named variables (data variables or
coordinates), raising `ValueError` if any name is not a variable of the
dataset. -/
def Dataset.dropNames (D : Dataset) (names : List String) : Except String Dataset :=
  if names.all (fun n => n ∈ D.varNames) then
    .ok { D with
      coords := D.coords.filter (fun v => v.name ∉ names),
      data_vars := D.data_vars.filter (fun v => v.name ∉ names) }
  else .error "ValueError: cannot drop variables that are not in the dataset"

/-- Python truthiness of the `drop_vars` argument: `None` and the empty
list are both falsy. -/
def truthyList : Option (List String) → Bool
  | none => false
  | some l => !l.isEmpty

/-- The default `retain_vars` argument of `drop_variables`. -/
def defaultRetainVars : List String := ["TEMP1", "CNDC1", "PSAL1", "CHLA1"]

/-- `drop_variables` (ctd.py:278-311): with a truthy `drop_vars` list the
listed variables are dropped; otherwise the loop over the data variable
names drops each one that is not in `retain_vars` and carries the `PRES`
dimension. -/
def drop_variables (D : Dataset) (retain_vars : List String)
    (drop_vars : Option (List String)) : Except String Dataset :=
  if truthyList drop_vars then D.dropNames (drop_vars.getD [])
  else
    D.dataVarNames.foldlM
      (fun Dacc varnm =>
        match Dacc.data_vars.find? (fun v => v.name = varnm) with
        | none => .error ("KeyError: " ++ varnm)
        | some v =>
          if varnm ∉ retain_vars ∧ "PRES" ∈ v.dims then Dacc.dropNames [varnm]
          else pure Dacc)
      D

theorem dropNames_mk (coordVars dataVars : List Var) (gattrs : Attrs) (n : String)
    (hn : n ∈ (Dataset.mk coordVars dataVars gattrs).varNames) :
    (Dataset.mk coordVars dataVars gattrs).dropNames [n] =
      .ok (Dataset.mk (coordVars.filter (fun v => v.name ∉ [n]))
        (dataVars.filter (fun v => v.name ∉ [n])) gattrs) := by
  unfold Dataset.dropNames
  rw [if_pos (by simp [hn])]

theorem find?_append_of_none {α : Type} (p : α → Bool) (l₁ l₂ : List α)
    (h : l₁.find? p = none) : (l₁ ++ l₂).find? p = l₂.find? p := by
  induction l₁ with
  | nil => rfl
  | cons a rest ih =>
    rw [List.cons_append]
    cases hp : p a with
    | true =>
      rw [List.find?_cons_of_pos _ hp] at h
      exact Option.noConfusion h
    | false =>
      rw [List.find?_cons_of_neg _ (by simp [hp])] at h
      rw [List.find?_cons_of_neg _ (by simp [hp])]
      exact ih h

theorem find?_eq_none_of_names {l : List Var} {n : String}
    (h : ∀ v ∈ l, v.name ≠ n) : l.find? (fun v => v.name = n) = none := by
  rw [List.find?_eq_none]
  intro v hv
  simp [h v hv]

theorem filter_eq_self_of_names {l : List Var} {n : String}
    (h : ∀ v ∈ l, v.name ≠ n) : l.filter (fun v => v.name ∉ [n]) = l := by
  rw [List.filter_eq_self]
  intro v hv
  simp [h v hv]

/-- The retain-branch loop of `drop_variables`, specified by induction on
the suffix of data variables still to be visited. -/
theorem drop_loop_spec (retain : List String) :
    ∀ (post pre coordVars : List Var) (gattrs : Attrs),
      (post.map Var.name).Nodup →
      (∀ v ∈ pre, ∀ w ∈ post, v.name ≠ w.name) →
      (∀ c ∈ coordVars, ∀ w ∈ post, c.name ≠ w.name) →
      ((post.map Var.name).foldlM
        (fun (Dacc : Dataset) (varnm : String) =>
          match Dacc.data_vars.find? (fun v => v.name = varnm) with
          | none => (Except.error ("KeyError: " ++ varnm) : Except String Dataset)
          | some v =>
            if varnm ∉ retain ∧ "PRES" ∈ v.dims then Dacc.dropNames [varnm]
            else pure Dacc)
        (Dataset.mk coordVars (pre ++ post) gattrs))
      = .ok (Dataset.mk coordVars
          (pre ++ post.filter (fun v => v.name ∈ retain ∨ "PRES" ∉ v.dims)) gattrs) := by
  intro post
  induction post with
  | nil =>
    intro pre coordVars gattrs _ _ _
    simp only [List.map_nil, List.foldlM_nil, List.filter_nil, List.append_nil]
    rfl
  | cons w post ih =>
    intro pre coordVars gattrs hnodup hpre hcoord
    simp only [List.map_cons, List.foldlM_cons]
    have hfind : ((Dataset.mk coordVars (pre ++ w :: post) gattrs).data_vars.find?
        (fun v => v.name = w.name)) = some w := by
      show ((pre ++ w :: post).find? (fun v => v.name = w.name)) = some w
      rw [find?_append_of_none _ pre _
        (find?_eq_none_of_names (fun v hv => hpre v hv w (List.mem_cons_self _ _)))]
      rw [List.find?_cons_of_pos _ (by simp)]
    rw [hfind]
    dsimp only
    have hnodup' : (post.map Var.name).Nodup := (List.nodup_cons.mp hnodup).2
    have hwpost : ∀ u ∈ post, w.name ≠ u.name := by
      intro u hu hc
      exact (List.nodup_cons.mp hnodup).1 (hc ▸ List.mem_map_of_mem Var.name hu)
    by_cases hcondn : w.name ∉ retain ∧ "PRES" ∈ w.dims
    · rw [if_pos hcondn]
      have hmem : w.name ∈ (Dataset.mk coordVars (pre ++ w :: post) gattrs).varNames := by
        show w.name ∈ (pre ++ w :: post).map Var.name ++ coordVars.map Var.name
        refine List.mem_append_left _ ?_
        exact List.mem_map_of_mem Var.name (List.mem_append_right _ (List.mem_cons_self _ _))
      have hcoords_id : coordVars.filter (fun v => v.name ∉ [w.name]) = coordVars :=
        filter_eq_self_of_names (fun c hc => hcoord c hc w (List.mem_cons_self _ _))
      have hdata : (pre ++ w :: post).filter (fun v => v.name ∉ [w.name]) = pre ++ post := by
        rw [List.filter_append]
        rw [filter_eq_self_of_names (fun v hv => hpre v hv w (List.mem_cons_self _ _))]
        rw [List.filter_cons_of_neg (by simp)]
        rw [filter_eq_self_of_names (fun u hu => (hwpost u hu).symm)]
      have hstep : (Dataset.mk coordVars (pre ++ w :: post) gattrs).dropNames [w.name] =
          .ok (Dataset.mk coordVars (pre ++ post) gattrs) := by
        rw [dropNames_mk _ _ _ _ hmem, hcoords_id, hdata]
      rw [hstep, ok_bind]
      rw [ih pre coordVars gattrs hnodup'
        (fun v hv u hu => hpre v hv u (List.mem_cons_of_mem _ hu))
        (fun c hc u hu => hcoord c hc u (List.mem_cons_of_mem _ hu))]
      rw [List.filter_cons_of_neg (by simp [hcondn.1, hcondn.2])]
    · rw [if_neg hcondn, pure_bind]
      have hpre' : ∀ v ∈ pre ++ [w], ∀ u ∈ post, v.name ≠ u.name := by
        intro v hv u hu
        rcases List.mem_append.mp hv with hv1 | hv2
        · exact hpre v hv1 u (List.mem_cons_of_mem _ hu)
        · rw [List.mem_singleton.mp hv2]
          exact hwpost u hu
      have hstate : (Dataset.mk coordVars (pre ++ w :: post) gattrs) =
          (Dataset.mk coordVars ((pre ++ [w]) ++ post) gattrs) := by
        simp
      rw [hstate]
      rw [ih (pre ++ [w]) coordVars gattrs hnodup' hpre'
        (fun c hc u hu => hcoord c hc u (List.mem_cons_of_mem _ hu))]
      have hkeepw : w.name ∈ retain ∨ "PRES" ∉ w.dims := by
        by_contra hc
        push_neg at hc
        exact hcondn ⟨hc.1, hc.2⟩
      rw [List.filter_cons_of_pos (by simp [hkeepw])]
      simp

/-- C4: with no explicit drop list, `drop_variables` removes exactly the
data variables that carry the `PRES` dimension and are not in the retain
list `R` (every variable without `PRES` survives, whatever `R` contains,
and coordinates are untouched); with an explicit non-empty drop list of
existing variables, the retain list is ignored and exactly the listed
variables are dropped.  Hypotheses are the xarray invariants: distinct
data variable names, data variable names disjoint from coordinate names,
and (for the explicit branch) a non-empty list of existing variables. -/
theorem drop_variables_spec (D : Dataset) (R : List String) (l : List String)
    (hnodup : D.dataVarNames.Nodup)
    (hdisj : ∀ n ∈ D.dataVarNames, n ∉ D.coordNames)
    (hl : l ≠ [])
    (hex : ∀ n ∈ l, n ∈ D.dataVarNames) :
    (drop_variables D R none =
      .ok { D with data_vars := D.data_vars.filter (fun v => v.name ∈ R ∨ "PRES" ∉ v.dims) }) ∧
    (∀ R', drop_variables D R' (some l) = drop_variables D R (some l)) ∧
    (drop_variables D R (some l) =
      .ok { D with data_vars := D.data_vars.filter (fun v => v.name ∉ l) }) := by
  have hco : ∀ c ∈ D.coords, ∀ w ∈ D.data_vars, c.name ≠ w.name := by
    intro c hc w hw hcn
    exact hdisj w.name (List.mem_map_of_mem Var.name hw)
      (hcn ▸ List.mem_map_of_mem Var.name hc)
  have htr : truthyList (some l) = true := by
    simp only [truthyList, Bool.not_eq_true', List.isEmpty_eq_false]
    exact hl
  refine ⟨?_, ?_, ?_⟩
  · unfold drop_variables
    rw [if_neg (by simp [truthyList])]
    exact drop_loop_spec R D.data_vars [] D.coords D.attrs hnodup
      (by intro v hv; exact absurd hv (List.not_mem_nil v)) hco
  · intro R'
    unfold drop_variables
    rw [if_pos htr, if_pos htr]
  · unfold drop_variables
    rw [if_pos htr]
    show D.dropNames l = _
    unfold Dataset.dropNames
    rw [if_pos (by
      rw [List.all_eq_true]
      intro n hn
      simp only [decide_eq_true_eq]
      exact List.mem_append_left _ (hex n hn))]
    have hcid : D.coords.filter (fun v => v.name ∉ l) = D.coords := by
      rw [List.filter_eq_self]
      intro c hc
      simp only [decide_eq_true_eq]
      intro hcl
      exact hdisj c.name (hex c.name hcl) (List.mem_map_of_mem Var.name hc)
    rw [hcid]

/-- A concrete dataset for exercising `drop_variables`: coordinates TIME
and PRES, depth-indexed data variables TEMP1 and CHLA2, and a profile
scalar STATION without the PRES dimension. -/
def dropExample : Dataset :=
  { coords := [{ name := "TIME", dims := ["TIME"], data := [], attrs := [] },
               { name := "PRES", dims := ["PRES"], data := [], attrs := [] }],
    data_vars := [{ name := "TEMP1", dims := ["TIME", "PRES"], data := [], attrs := [] },
                  { name := "CHLA2", dims := ["TIME", "PRES"], data := [], attrs := [] },
                  { name := "STATION", dims := ["TIME"], data := [], attrs := [] }],
    attrs := [] }

/-- Witness for C4 at a concrete dataset, retain list `["TEMP1"]` and
explicit drop list `["CHLA2"]`. -/
theorem drop_variables_spec_witness :
    (drop_variables dropExample ["TEMP1"] none =
      .ok { dropExample with data_vars := (dropExample.data_vars.filter
              (fun v => v.name ∈ ["TEMP1"] ∨ "PRES" ∉ v.dims)) }) ∧
    (drop_variables dropExample [] (some ["CHLA2"]) =
      drop_variables dropExample ["TEMP1"] (some ["CHLA2"])) ∧
    (drop_variables dropExample ["TEMP1"] (some ["CHLA2"]) =
      .ok { dropExample with data_vars := (dropExample.data_vars.filter
              (fun v => v.name ∉ ["CHLA2"])) }) :=
  ⟨(drop_variables_spec dropExample ["TEMP1"] ["CHLA2"]
      (by decide) (by decide) (by decide) (by decide)).1,
   (drop_variables_spec dropExample ["TEMP1"] ["CHLA2"]
      (by decide) (by decide) (by decide) (by decide)).2.1 [],
   (drop_variables_spec dropExample ["TEMP1"] ["CHLA2"]
      (by decide) (by decide) (by decide) (by decide)).2.2⟩

/-- C9: passing an explicit empty drop list is treated exactly like passing
no drop list at all (Python truthiness: `if drop_vars:`), so the
retain-list branch runs; with the default retain list, an empty drop
request can still remove a depth-indexed variable (here CHLA2). -/
theorem drop_variables_empty_drop_list :
    (∀ (D : Dataset) (R : List String),
      drop_variables D R (some []) = drop_variables D R none) ∧
    defaultRetainVars = ["TEMP1", "CNDC1", "PSAL1", "CHLA1"] ∧
    drop_variables
      (Dataset.mk
        [{ name := "TIME", dims := ["TIME"], data := [], attrs := [] },
         { name := "PRES", dims := ["PRES"], data := [], attrs := [] }]
        [{ name := "TEMP1", dims := ["TIME", "PRES"], data := [], attrs := [] },
         { name := "CHLA2", dims := ["TIME", "PRES"], data := [], attrs := [] }]
        [])
      defaultRetainVars (some []) =
      .ok (Dataset.mk
        [{ name := "TIME", dims := ["TIME"], data := [], attrs := [] },
         { name := "PRES", dims := ["PRES"], data := [], attrs := [] }]
        [{ name := "TEMP1", dims := ["TIME", "PRES"], data := [], attrs := [] }]
        []) :=
  ⟨fun _ _ => rfl, rfl, by rfl⟩

/- ### `quick_metadata_check` (ctd.py:85-147): a read-only advisory pass,
modelled as the list of lines printed to standard output.  The schema lists
`global_attrs_ordered` and `variable_attrs_necessary` live in the
`_standard_attrs` module, outside the given sources, and are passed as
parameters; `list.remove` is modelled by `List.erase`. -/

/-- The block printed for one depth-indexed variable: the reference list is
adjusted for CHLA (calibration attributes added) and PRES (axis attributes
added, processing-level and quality-control attributes removed), then one
advisory line is printed per missing attribute, or a single OK line. -/
def variableCheckLines (necessary : List String) (v : Var) : List String :=
  let adj1 := if v.name = "CHLA"
    then necessary ++ ["calibration_formula", "coefficient_A", "coefficient_B"]
    else necessary
  let adj2 := if v.name = "PRES"
    then ((adj1 ++ ["axis", "positive"]).erase "processing_level").erase "QC_indicator"
    else adj1
  let missing := adj2.flatMap (fun a =>
    if hasAttr a v.attrs then [] else ["- " ++ v.name ++ ": Possibly missing " ++ a])
  if missing.isEmpty then ["- " ++ v.name ++ ": OK"] else missing

/-- The fixed `other_dict` of `quick_metadata_check`. -/
def otherDict : List (String × List String) :=
  [("LATITUDE", ["units", "standard_name", "long_name", "axis"]),
   ("LONGITUDE", ["units", "standard_name", "long_name", "axis"]),
   ("STATION", ["cf_role", "long_name"]),
   ("CRUISE", ["long_name"])]

/-- The lines printed for the auxiliary variables of `other_dict` (only for
those present in the dataset). -/
def otherVarLines (D : Dataset) : List String :=
  otherDict.flatMap (fun p =>
    match D.variablesList.find? (fun v => v.name = p.1) with
    | none => []
    | some v =>
      let missing := p.2.flatMap (fun a =>
        if hasAttr a v.attrs then [] else ["- " ++ p.1 ++ ": Possibly missing " ++ a])
      if missing.isEmpty then ["- " ++ p.1 ++ ": OK"] else missing)

/-- `quick_metadata_check` (ctd.py:85-147) as the list of printed lines:
headers, then one advisory line per required global attribute missing from
`D.attrs` (the reference list minus `date_created` and `processing_level`),
then the per-variable blocks. -/
def quick_metadata_check (globalOrder varNecessary : List String) (D : Dataset) :
    List String :=
  ["--  QUICK METADATA CHECK --",
   "NOTE: Not comprehensive! A true check is done on export to netcdf.",
   "\n# GLOBAL #"] ++
  (((globalOrder.erase "date_created").erase "processing_level").flatMap
    (fun attr => if hasAttr attr D.attrs then [] else ["- Possibly missing " ++ attr])) ++
  ["\n# VARIABLE #"] ++
  (D.variablesList.flatMap (fun v =>
    if "PRES" ∈ v.dims then variableCheckLines varNecessary v else [])) ++
  otherVarLines D

theorem flatMap_advisory {α : Type} (l : List α) (p : α → Bool) (f : α → String) :
    (l.flatMap (fun a => if p a then [] else [f a])) =
      (l.filter (fun a => !p a)).map f := by
  induction l with
  | nil => rfl
  | cons a rest ih =>
    rw [List.flatMap_cons, List.filter_cons]
    cases hp : p a with
    | true => simpa [hp] using ih
    | false => simpa [hp] using ih

/-- C5: `quick_metadata_check` is a total function of the dataset (it never
raises; its report is only a list of printed lines), and the global section
of its report contains exactly one advisory line for each required global
attribute (the reference ordering minus `date_created` and
`processing_level`) that is absent from the dataset's global attribute
dictionary, in reference order. -/
theorem quick_metadata_check_globals (globalOrder varNecessary : List String)
    (D : Dataset) :
    ∃ rest, quick_metadata_check globalOrder varNecessary D =
      ["--  QUICK METADATA CHECK --",
       "NOTE: Not comprehensive! A true check is done on export to netcdf.",
       "\n# GLOBAL #"] ++
      ((((globalOrder.erase "date_created").erase "processing_level").filter
        (fun a => !hasAttr a D.attrs)).map (fun a => "- Possibly missing " ++ a)) ++
      rest := by
  refine ⟨["\n# VARIABLE #"] ++
    (D.variablesList.flatMap (fun v =>
      if "PRES" ∈ v.dims then variableCheckLines varNecessary v else [])) ++
    otherVarLines D, ?_⟩
  unfold quick_metadata_check
  rw [flatMap_advisory]
  simp [List.append_assoc]

/- ### Lookup lemmas for `setAttr` (Python dict assignment). -/

theorem lookupAttr_cons (k k' : String) (v : AttrValue) (rest : Attrs) :
    lookupAttr k ((k', v) :: rest) = if k' = k then some v else lookupAttr k rest := rfl

theorem lookupAttr_mapReplace (k : String) (v : AttrValue) (m : Attrs) :
    lookupAttr k (m.map (fun p => if p.1 = k then (k, v) else p)) =
      (lookupAttr k m).map (fun _ => v) := by
  induction m with
  | nil => rfl
  | cons p rest ih =>
    obtain ⟨k₁, v₁⟩ := p
    rw [List.map_cons]
    by_cases h : k₁ = k
    · have hif : (if (k₁, v₁).1 = k then (k, v) else (k₁, v₁)) = (k, v) := if_pos h
      rw [hif, lookupAttr_cons, if_pos rfl, lookupAttr_cons, if_pos h]
      rfl
    · have hif : (if (k₁, v₁).1 = k then (k, v) else (k₁, v₁)) = (k₁, v₁) := if_neg h
      rw [hif, lookupAttr_cons, if_neg h, lookupAttr_cons, if_neg h, ih]

theorem lookupAttr_mapReplace_ne (k k' : String) (v : AttrValue) (m : Attrs)
    (h : k ≠ k') :
    lookupAttr k (m.map (fun p => if p.1 = k' then (k', v) else p)) =
      lookupAttr k m := by
  induction m with
  | nil => rfl
  | cons p rest ih =>
    obtain ⟨k₁, v₁⟩ := p
    rw [List.map_cons]
    by_cases h1 : k₁ = k'
    · have hif : (if (k₁, v₁).1 = k' then (k', v) else (k₁, v₁)) = (k', v) := if_pos h1
      have hk₁ : ¬ k₁ = k := by
        intro hc
        rw [← hc] at h
        exact h h1
      rw [hif, lookupAttr_cons, if_neg (Ne.symm h), lookupAttr_cons, if_neg hk₁, ih]
    · have hif : (if (k₁, v₁).1 = k' then (k', v) else (k₁, v₁)) = (k₁, v₁) := if_neg h1
      rw [hif, lookupAttr_cons, lookupAttr_cons, ih]

theorem any_key_eq_isSome (k : String) (m : Attrs) :
    (m.any (fun p => p.1 = k)) = (lookupAttr k m).isSome := by
  induction m with
  | nil => rfl
  | cons p rest ih =>
    obtain ⟨k₁, v₁⟩ := p
    rw [List.any_cons, lookupAttr_cons]
    by_cases h : k₁ = k
    · rw [if_pos h]
      simp [h]
    · rw [if_neg h]
      simp [h, ih]

theorem lookupAttr_append_none (k : String) (m₁ m₂ : Attrs)
    (h : lookupAttr k m₁ = none) :
    lookupAttr k (m₁ ++ m₂) = lookupAttr k m₂ := by
  induction m₁ with
  | nil => rfl
  | cons p rest ih =>
    obtain ⟨k₁, v₁⟩ := p
    by_cases hk : k₁ = k
    · rw [lookupAttr, if_pos hk] at h
      exact Option.noConfusion h
    · rw [lookupAttr, if_neg hk] at h
      rw [List.cons_append, lookupAttr, if_neg hk]
      exact ih h

theorem lookupAttr_append_some (k : String) (m₁ m₂ : Attrs) (w : AttrValue)
    (h : lookupAttr k m₁ = some w) :
    lookupAttr k (m₁ ++ m₂) = some w := by
  induction m₁ with
  | nil => exact Option.noConfusion h
  | cons p rest ih =>
    obtain ⟨k₁, v₁⟩ := p
    by_cases hk : k₁ = k
    · rw [lookupAttr, if_pos hk] at h
      rw [List.cons_append, lookupAttr, if_pos hk]
      exact h
    · rw [lookupAttr, if_neg hk] at h
      rw [List.cons_append, lookupAttr, if_neg hk]
      exact ih h

theorem lookupAttr_setAttr_self (m : Attrs) (k : String) (v : AttrValue) :
    lookupAttr k (setAttr m k v) = some v := by
  unfold setAttr
  by_cases h : m.any (fun p => p.1 = k) = true
  · rw [if_pos h, lookupAttr_mapReplace]
    rw [any_key_eq_isSome] at h
    cases hl : lookupAttr k m with
    | none => rw [hl] at h; exact Bool.noConfusion h
    | some w => simp
  · rw [if_neg h]
    have hnone : lookupAttr k m = none := by
      rw [any_key_eq_isSome] at h
      cases hl : lookupAttr k m with
      | none => rfl
      | some w =>
        rw [hl] at h
        exact absurd rfl h
    rw [lookupAttr_append_none k m _ hnone]
    simp [lookupAttr]

theorem lookupAttr_setAttr_ne (m : Attrs) (k k' : String) (v : AttrValue)
    (h : k ≠ k') :
    lookupAttr k (setAttr m k' v) = lookupAttr k m := by
  unfold setAttr
  by_cases ha : m.any (fun p => p.1 = k') = true
  · rw [if_pos ha]
    exact lookupAttr_mapReplace_ne k k' v m h
  · rw [if_neg ha]
    cases hl : lookupAttr k m with
    | none =>
      rw [lookupAttr_append_none k m _ hl]
      simp [lookupAttr, Ne.symm h]
    | some w => exact lookupAttr_append_some k m _ w hl

/- ### Export (`to_netcdf`, ctd.py:152-184, `add_now_as_date_created`,
ctd.py:386-395).  The current time enters as parameters: `nowIso` is the
ISO-8601 timestamp produced by the util module's formatter (outside the
given sources) and `nowDate` the `YYYY-MM-DD` string.  The actual file
write is I/O, outside the model: the function returns the dataset as it is
serialized, together with the file name used. -/

/-- `add_now_as_date_created` (ctd.py:386-395): set the global attribute
`date_created` to the current ISO-8601 timestamp. -/
def add_now_as_date_created (D : Dataset) (nowIso : String) : Dataset :=
  { D with attrs := setAttr D.attrs "date_created" (.str nowIso) }

/-- `to_netcdf` (ctd.py:152-184): stamp `date_created`, reorder attributes,
choose the file name (the `id` attribute, or `CTD_DATASET_NO_NAME` if
absent, when none is given), and, if `add_to_history` is set, append a
dated line to the `history` attribute (raising like Python if it does not
exist or is not a string). -/
def to_netcdf (D : Dataset) (globalOrder varOrder : List String)
    (nowIso nowDate : String) (file_name : Option String) (add_to_history : Bool) :
    Except String (Dataset × String) :=
  let D2 := reorder_attrs (add_now_as_date_created D nowIso) globalOrder varOrder
  let fname := match file_name with
    | some f => f
    | none =>
      match lookupAttr "id" D2.attrs with
      | some v => v.display
      | none => "CTD_DATASET_NO_NAME"
  if add_to_history then
    match lookupAttr "history" D2.attrs with
    | some (.str h) =>
      let newHistory := AttrValue.str (h ++ "\n" ++ nowDate ++ ": Creation of this netcdf file.")
      .ok ({ D2 with attrs := setAttr D2.attrs "history" newHistory }, fname)
    | some (.num _) => .error "TypeError: can only concatenate str to str"
    | none => .error "AttributeError: attribute history not found"
  else .ok (D2, fname)

/-- C6: exporting with history logging enabled stamps the `date_created`
global attribute with the export-time timestamp and appends to the
`history` attribute exactly one newline-prefixed dated line
`YYYY-MM-DD: Creation of this netcdf file.`, leaving the earlier history
content in place as a prefix of the new value. -/
theorem to_netcdf_history_spec (D : Dataset) (globalOrder varOrder : List String)
    (nowIso nowDate : String) (file_name : Option String) (h : String)
    (hh : lookupAttr "history" D.attrs = some (.str h)) :
    ∃ D' fname,
      to_netcdf D globalOrder varOrder nowIso nowDate file_name true = .ok (D', fname) ∧
      lookupAttr "history" D'.attrs =
        some (.str (h ++ "\n" ++ nowDate ++ ": Creation of this netcdf file.")) ∧
      lookupAttr "date_created" D'.attrs = some (.str nowIso) := by
  have h2 : lookupAttr "history"
      (reorder_attrs (add_now_as_date_created D nowIso) globalOrder varOrder).attrs =
      some (.str h) := by
    show lookupAttr "history"
      (reorderDict (setAttr D.attrs "date_created" (.str nowIso)) globalOrder) = _
    rw [lookupAttr_reorderDict, lookupAttr_setAttr_ne _ _ _ _ (by decide), hh]
  have h3 : lookupAttr "date_created"
      (reorder_attrs (add_now_as_date_created D nowIso) globalOrder varOrder).attrs =
      some (.str nowIso) := by
    show lookupAttr "date_created"
      (reorderDict (setAttr D.attrs "date_created" (.str nowIso)) globalOrder) = _
    rw [lookupAttr_reorderDict, lookupAttr_setAttr_self]
  refine ⟨{ reorder_attrs (add_now_as_date_created D nowIso) globalOrder varOrder with
      attrs := (setAttr
        (reorder_attrs (add_now_as_date_created D nowIso) globalOrder varOrder).attrs
        "history" (.str (h ++ "\n" ++ nowDate ++ ": Creation of this netcdf file."))) },
    (match file_name with
      | some f => f
      | none =>
        match lookupAttr "id"
            (reorder_attrs (add_now_as_date_created D nowIso) globalOrder varOrder).attrs with
        | some v => v.display
        | none => "CTD_DATASET_NO_NAME"),
    ?_, ?_, ?_⟩
  · simp only [to_netcdf, if_true]
    rw [h2]
  · exact lookupAttr_setAttr_self _ _ _
  · rw [lookupAttr_setAttr_ne _ _ _ _ (by decide)]
    exact h3

/-- Witness for C6: a dataset whose only global attribute is a history
string gets the dated creation line appended and the timestamp stamped. -/
theorem to_netcdf_history_spec_witness :
    ∃ D' fname,
      to_netcdf (Dataset.mk [] [] [("history", .str "2020-01-01: Created.")])
        [] [] "2026-10-12T00:00:00" "2026-10-12" none true = .ok (D', fname) ∧
      lookupAttr "history" D'.attrs =
        some (.str ("2020-01-01: Created." ++ "\n" ++ "2026-10-12" ++
          ": Creation of this netcdf file.")) ∧
      lookupAttr "date_created" D'.attrs = some (.str "2026-10-12T00:00:00") :=
  to_netcdf_history_spec
    (Dataset.mk [] [] [("history", .str "2020-01-01: Created.")])
    [] [] "2026-10-12T00:00:00" "2026-10-12" none "2020-01-01: Created." rfl

/-- C7: exported without an explicit file name, the export uses the
dataset's `id` attribute as the file name; if the attribute is absent it
falls back to the literal `CTD_DATASET_NO_NAME`.  With history logging
off the export always succeeds, so an absent identifier never raises. -/
theorem to_netcdf_filename_spec (D : Dataset) (globalOrder varOrder : List String)
    (nowIso nowDate : String) :
    (∀ (ah : Bool) (D' : Dataset) (fname : String),
      to_netcdf D globalOrder varOrder nowIso nowDate none ah = .ok (D', fname) →
      fname = ((lookupAttr "id" D.attrs).map AttrValue.display).getD "CTD_DATASET_NO_NAME") ∧
    (∃ D', to_netcdf D globalOrder varOrder nowIso nowDate none false =
      .ok (D', ((lookupAttr "id" D.attrs).map AttrValue.display).getD "CTD_DATASET_NO_NAME")) := by
  have hid : lookupAttr "id"
      (reorder_attrs (add_now_as_date_created D nowIso) globalOrder varOrder).attrs =
      lookupAttr "id" D.attrs := by
    show lookupAttr "id"
      (reorderDict (setAttr D.attrs "date_created" (.str nowIso)) globalOrder) = _
    rw [lookupAttr_reorderDict, lookupAttr_setAttr_ne _ _ _ _ (by decide)]
  have hfn : (match lookupAttr "id"
        (reorder_attrs (add_now_as_date_created D nowIso) globalOrder varOrder).attrs with
      | some v => v.display
      | none => "CTD_DATASET_NO_NAME") =
      ((lookupAttr "id" D.attrs).map AttrValue.display).getD "CTD_DATASET_NO_NAME" := by
    rw [hid]
    cases hl : lookupAttr "id" D.attrs with
    | none => rfl
    | some v => rfl
  constructor
  · intro ah D' fname heq
    cases ah with
    | false =>
      simp only [to_netcdf, Bool.false_eq_true, if_false] at heq
      have hp := Except.ok.inj heq
      have hsnd := congrArg Prod.snd hp
      simp only at hsnd
      rw [← hsnd, hfn]
    | true =>
      simp only [to_netcdf, if_true] at heq
      cases hl : lookupAttr "history"
          (reorder_attrs (add_now_as_date_created D nowIso) globalOrder varOrder).attrs with
      | none =>
        rw [hl] at heq
        exact Except.noConfusion heq
      | some w =>
        cases w with
        | str s =>
          rw [hl] at heq
          have hp := Except.ok.inj heq
          have hsnd := congrArg Prod.snd hp
          simp only at hsnd
          rw [← hsnd, hfn]
        | num q =>
          rw [hl] at heq
          exact Except.noConfusion heq
  · refine ⟨reorder_attrs (add_now_as_date_created D nowIso) globalOrder varOrder, ?_⟩
    simp only [to_netcdf, Bool.false_eq_true, if_false]
    rw [hfn]

/-- Witness for C7 at concrete inputs: with an `id` attribute the file is
named after it; without one the fallback literal is used. -/
theorem to_netcdf_filename_spec_witness :
    ("sta001_ctd" =
      ((lookupAttr "id" [("id", AttrValue.str "sta001_ctd")]).map
        AttrValue.display).getD "CTD_DATASET_NO_NAME") ∧
    (∃ D', to_netcdf (Dataset.mk [] [] []) [] [] "t" "d" none false =
      .ok (D', ((lookupAttr "id" (([] : Attrs))).map
        AttrValue.display).getD "CTD_DATASET_NO_NAME")) :=
  ⟨(to_netcdf_filename_spec (Dataset.mk [] [] [("id", AttrValue.str "sta001_ctd")])
      [] [] "t" "d").1 false
      (reorder_attrs (add_now_as_date_created
        (Dataset.mk [] [] [("id", AttrValue.str "sta001_ctd")]) "t") [] [])
      "sta001_ctd" rfl,
   (to_netcdf_filename_spec (Dataset.mk [] [] []) [] [] "t" "d").2⟩

/- ### Chlorophyll calibration (`calibrate_chl`, ctd.py:192-274). -/

/-- Does the character list start with `pat`? -/
def listStartsWith : List Char → List Char → Bool
  | [], _ => true
  | _ :: _, [] => false
  | p :: ps, c :: cs => p = c && listStartsWith ps cs

/-- Python `pat in s` over character lists (substring occurrence). -/
def listContainsSub (pat : List Char) : List Char → Bool
  | [] => listStartsWith pat []
  | c :: rest => listStartsWith pat (c :: rest) || listContainsSub pat rest

/-- Python `'pat' in s` for strings. -/
def containsSub (s pat : String) : Bool :=
  listContainsSub pat.toList s.toList

/-- Python `s.replace(pat, '')` for a non-empty pattern: remove the
non-overlapping occurrences of `pat` left to right.  The fuel argument (the
length of the list) makes the recursion structural. -/
def removeSubGo (pat : List Char) : Nat → List Char → List Char
  | _, [] => []
  | 0, l => l
  | fuel + 1, c :: rest =>
    if listStartsWith pat (c :: rest) && !pat.isEmpty then
      removeSubGo pat fuel ((c :: rest).drop pat.length)
    else c :: removeSubGo pat fuel rest

/-- Python `s.replace(pat, '')` for strings (non-empty `pat`). -/
def removeSub (s pat : String) : String :=
  String.mk (removeSubGo pat.toList s.toList.length s.toList)

/-- Python truthiness of the `chl_name_out` argument: `None` and the empty
string are falsy. -/
def truthyStr : Option String → Bool
  | none => false
  | some s => !(s == "")

/-- The output name of `calibrate_chl`: an explicitly given (truthy) name
wins; otherwise the `_instr` suffix is stripped when present, else `_cal`
is appended. -/
def resolveChlNameOut (chl_name_in : String) (chl_name_out : Option String) : String :=
  if truthyStr chl_name_out then chl_name_out.getD ""
  else if containsSub chl_name_in "_instr" then removeSub chl_name_in "_instr"
  else chl_name_in ++ "_cal"

/-- `D[name] = variable`: overwrite in place when a data variable of that
name exists, otherwise append a new data variable. -/
def Dataset.setDataVar (D : Dataset) (nm : String) (newVar : Var) : Dataset :=
  if D.data_vars.any (fun v => v.name = nm) then
    { D with data_vars := D.data_vars.map (fun v => if v.name = nm then newVar else v) }
  else { D with data_vars := D.data_vars ++ [newVar] }

/-- `calibrate_chl` (ctd.py:192-274): create the calibrated variable
`out = A * input + B`, give it a copy of the input variable's attributes
overlaid with the calibration attributes, and optionally drop the
uncalibrated input variable. -/
def calibrate_chl (D : Dataset) (A B : ℚ) (chl_name_in : String)
    (chl_name_out : Option String) (remove_uncal : Bool) : Except String Dataset :=
  let out := resolveChlNameOut chl_name_in chl_name_out
  match D.data_vars.find? (fun v => v.name = chl_name_in) with
  | none => .error ("KeyError: " ++ chl_name_in)
  | some vin =>
    let newAttrs : Attrs :=
      [("long_name",
        .str "Chlorophyll-A concentration calibrated against water sample measurements"),
       ("calibration_formula", .str "chla_calibrated = A * chla_from_ctd + B"),
       ("coefficient_A", .num A),
       ("coefficient_B", .num B)]
    let vout : Var :=
      { name := out, dims := vin.dims,
        data := vin.data.map (fun x => A * x + B),
        attrs := newAttrs.foldl (fun acc kv => setAttr acc kv.1 kv.2) vin.attrs }
    let D1 := D.setDataVar out vout
    if remove_uncal then D1.dropNames [chl_name_in] else .ok D1

theorem find?_mapReplaceVar (l : List Var) (nm : String) (w : Var)
    (hw : w.name = nm) (h : l.any (fun v => v.name = nm) = true) :
    (l.map (fun v => if v.name = nm then w else v)).find? (fun v => v.name = nm) =
      some w := by
  induction l with
  | nil => exact Bool.noConfusion h
  | cons a rest ih =>
    rw [List.map_cons]
    by_cases ha : a.name = nm
    · rw [if_pos ha]
      rw [List.find?_cons_of_pos _ (by simp [hw])]
    · rw [if_neg ha, List.find?_cons_of_neg _ (by simp [ha])]
      apply ih
      rw [List.any_cons] at h
      simpa [ha] using h

theorem any_eq_false_names (l : List Var) (nm : String)
    (h : ¬ l.any (fun v => v.name = nm) = true) :
    ∀ v ∈ l, v.name ≠ nm := by
  intro v hv hc
  exact h (List.any_eq_true.mpr ⟨v, hv, by simp [hc]⟩)

theorem find?_setDataVar (D : Dataset) (nm : String) (w : Var) (hw : w.name = nm) :
    (D.setDataVar nm w).data_vars.find? (fun v => v.name = nm) = some w := by
  unfold Dataset.setDataVar
  by_cases h : D.data_vars.any (fun v => v.name = nm) = true
  · rw [if_pos h]
    exact find?_mapReplaceVar D.data_vars nm w hw h
  · rw [if_neg h]
    show (D.data_vars ++ [w]).find? (fun v => v.name = nm) = some w
    rw [find?_append_of_none _ _ _ (find?_eq_none_of_names (any_eq_false_names _ _ h))]
    rw [List.find?_cons_of_pos _ (by simp [hw])]

theorem mem_names_setDataVar (D : Dataset) (nm : String) (w : Var) (n : String)
    (hne : n ≠ nm) (hn : n ∈ D.dataVarNames) :
    n ∈ (D.setDataVar nm w).dataVarNames := by
  obtain ⟨v, hv, hvn⟩ := List.mem_map.mp hn
  unfold Dataset.setDataVar
  by_cases h : D.data_vars.any (fun v => v.name = nm) = true
  · rw [if_pos h]
    show n ∈ (D.data_vars.map (fun v => if v.name = nm then w else v)).map Var.name
    refine List.mem_map.mpr ⟨if v.name = nm then w else v, List.mem_map_of_mem _ hv, ?_⟩
    rw [if_neg (by rw [hvn]; exact hne)]
    exact hvn
  · rw [if_neg h]
    show n ∈ (D.data_vars ++ [w]).map Var.name
    rw [List.map_append]
    exact List.mem_append_left _ hn

theorem dropNames_ok (D : Dataset) (n : String) (hn : n ∈ D.varNames) :
    D.dropNames [n] = .ok { D with
      coords := (D.coords.filter (fun v => v.name ∉ [n])),
      data_vars := (D.data_vars.filter (fun v => v.name ∉ [n])) } := by
  unfold Dataset.dropNames
  rw [if_pos (by simp [hn])]

theorem find?_filter_of_imp {α : Type} (l : List α) (p q : α → Bool)
    (h : ∀ a, p a = true → q a = true) :
    (l.filter q).find? p = l.find? p := by
  induction l with
  | nil => rfl
  | cons a rest ih =>
    by_cases hp : p a = true
    · rw [List.filter_cons_of_pos (h a hp), List.find?_cons_of_pos _ hp,
        List.find?_cons_of_pos _ hp]
    · by_cases hq : q a = true
      · rw [List.filter_cons_of_pos hq, List.find?_cons_of_neg _ hp,
          List.find?_cons_of_neg _ hp, ih]
      · rw [List.filter_cons_of_neg (by simp [hq]), List.find?_cons_of_neg _ hp, ih]

theorem not_mem_names_filter (l : List Var) (n : String) :
    n ∉ (l.filter (fun v => v.name ∉ [n])).map Var.name := by
  intro h
  obtain ⟨v, hv, hvn⟩ := List.mem_map.mp h
  have hq := (List.mem_filter.mp hv).2
  rw [hvn] at hq
  simp at hq

/-- C8: for every dataset containing the input variable, `calibrate_chl`
succeeds and produces an output variable whose data is `A * input + B`
pointwise, whose attributes are the input variable's attributes overlaid
with the calibration attributes (formula text, the coefficient values A
and B, and a calibrated long name: the four calibration keys carry the new
values and every other key keeps the input variable's value); the
uncalibrated input variable remains in the dataset if and only if removal
was not requested.  (The output name is required to differ from the input
name, which holds for every name actually derived by the `_instr`/`_cal`
rule.) -/
theorem calibrate_chl_spec (D : Dataset) (A B : ℚ) (chl_name_in : String)
    (chl_name_out : Option String) (remove_uncal : Bool) (vin : Var)
    (hin : D.data_vars.find? (fun v => v.name = chl_name_in) = some vin)
    (hne : resolveChlNameOut chl_name_in chl_name_out ≠ chl_name_in) :
    ∃ D', calibrate_chl D A B chl_name_in chl_name_out remove_uncal = .ok D' ∧
      (∃ vout,
        D'.data_vars.find?
          (fun v => v.name = resolveChlNameOut chl_name_in chl_name_out) = some vout ∧
        vout.data = vin.data.map (fun x => A * x + B) ∧
        lookupAttr "long_name" vout.attrs =
          some (.str "Chlorophyll-A concentration calibrated against water sample measurements") ∧
        lookupAttr "calibration_formula" vout.attrs =
          some (.str "chla_calibrated = A * chla_from_ctd + B") ∧
        lookupAttr "coefficient_A" vout.attrs = some (.num A) ∧
        lookupAttr "coefficient_B" vout.attrs = some (.num B) ∧
        (∀ k, k ≠ "long_name" → k ≠ "calibration_formula" → k ≠ "coefficient_A" →
          k ≠ "coefficient_B" → lookupAttr k vout.attrs = lookupAttr k vin.attrs)) ∧
      ((chl_name_in ∈ D'.dataVarNames) ↔ remove_uncal = false) := by
  have hinname : vin.name = chl_name_in := by
    have := List.find?_some hin
    exact of_decide_eq_true this
  have hinmem : chl_name_in ∈ D.dataVarNames := by
    rw [← hinname]
    exact List.mem_map_of_mem Var.name (List.mem_of_find?_eq_some hin)
  set out := resolveChlNameOut chl_name_in chl_name_out with hout
  set vout : Var :=
    { name := out,
      dims := vin.dims,
      data := vin.data.map (fun x => A * x + B),
      attrs := setAttr (setAttr (setAttr (setAttr vin.attrs
        "long_name"
        (.str "Chlorophyll-A concentration calibrated against water sample measurements"))
        "calibration_formula" (.str "chla_calibrated = A * chla_from_ctd + B"))
        "coefficient_A" (.num A))
        "coefficient_B" (.num B) } with hvout
  have hattrs :
      lookupAttr "long_name" vout.attrs =
        some (.str "Chlorophyll-A concentration calibrated against water sample measurements") ∧
      lookupAttr "calibration_formula" vout.attrs =
        some (.str "chla_calibrated = A * chla_from_ctd + B") ∧
      lookupAttr "coefficient_A" vout.attrs = some (.num A) ∧
      lookupAttr "coefficient_B" vout.attrs = some (.num B) ∧
      (∀ k, k ≠ "long_name" → k ≠ "calibration_formula" → k ≠ "coefficient_A" →
        k ≠ "coefficient_B" → lookupAttr k vout.attrs = lookupAttr k vin.attrs) := by
    refine ⟨?_, ?_, ?_, ?_, ?_⟩
    · rw [hvout]
      show lookupAttr "long_name" (setAttr (setAttr (setAttr (setAttr _ _ _) _ _) _ _) _ _) = _
      rw [lookupAttr_setAttr_ne _ _ _ _ (by decide),
        lookupAttr_setAttr_ne _ _ _ _ (by decide),
        lookupAttr_setAttr_ne _ _ _ _ (by decide),
        lookupAttr_setAttr_self]
    · rw [hvout]
      show lookupAttr "calibration_formula"
        (setAttr (setAttr (setAttr (setAttr _ _ _) _ _) _ _) _ _) = _
      rw [lookupAttr_setAttr_ne _ _ _ _ (by decide),
        lookupAttr_setAttr_ne _ _ _ _ (by decide),
        lookupAttr_setAttr_self]
    · rw [hvout]
      show lookupAttr "coefficient_A"
        (setAttr (setAttr (setAttr (setAttr _ _ _) _ _) _ _) _ _) = _
      rw [lookupAttr_setAttr_ne _ _ _ _ (by decide), lookupAttr_setAttr_self]
    · rw [hvout]
      exact lookupAttr_setAttr_self _ _ _
    · intro k h1 h2 h3 h4
      rw [hvout]
      show lookupAttr k (setAttr (setAttr (setAttr (setAttr _ _ _) _ _) _ _) _ _) = _
      rw [lookupAttr_setAttr_ne _ _ _ _ h4, lookupAttr_setAttr_ne _ _ _ _ h3,
        lookupAttr_setAttr_ne _ _ _ _ h2, lookupAttr_setAttr_ne _ _ _ _ h1]
  have hfind1 : (D.setDataVar out vout).data_vars.find? (fun v => v.name = out) =
      some vout := find?_setDataVar D out vout rfl
  have hmem1 : chl_name_in ∈ (D.setDataVar out vout).dataVarNames :=
    mem_names_setDataVar D out vout chl_name_in (fun hc => hne hc.symm) hinmem
  cases remove_uncal with
  | false =>
    refine ⟨D.setDataVar out vout, ?_, ⟨vout, ?_, rfl, hattrs⟩, ?_⟩
    · simp only [calibrate_chl, hin, Bool.false_eq_true, if_false]
      rfl
    · exact hfind1
    · simp [hmem1]
  | true =>
    have hmemvar : chl_name_in ∈ (D.setDataVar out vout).varNames :=
      List.mem_append_left _ hmem1
    refine ⟨{ D.setDataVar out vout with
        coords := ((D.setDataVar out vout).coords.filter
          (fun v => v.name ∉ [chl_name_in])),
        data_vars := ((D.setDataVar out vout).data_vars.filter
          (fun v => v.name ∉ [chl_name_in])) }, ?_, ⟨vout, ?_, rfl, hattrs⟩, ?_⟩
    · simp only [calibrate_chl, hin, if_true]
      exact dropNames_ok _ _ hmemvar
    · show ((D.setDataVar out vout).data_vars.filter
          (fun v => v.name ∉ [chl_name_in])).find? (fun v => v.name = out) = some vout
      rw [find?_filter_of_imp _ _ _ ?_]
      · exact hfind1
      · intro a ha
        have haname : a.name = out := of_decide_eq_true ha
        simp only [haname, List.mem_singleton, decide_eq_true_eq]
        exact hne
    · constructor
      · intro hmem
        exact absurd hmem (not_mem_names_filter _ _)
      · intro hc
        exact Bool.noConfusion hc

/-- Witness for C8: calibrating `CHLA1_instr` with A = 2, B = 3 and removal
of the uncalibrated variable requested, on a one-variable dataset. -/
theorem calibrate_chl_spec_witness :
    ∃ D', calibrate_chl
        (Dataset.mk []
          [{ name := "CHLA1_instr", dims := ["TIME", "PRES"], data := [1, 2],
             attrs := [("units", AttrValue.str "mg m-3")] }] [])
        2 3 "CHLA1_instr" none true = .ok D' ∧
      (∃ vout,
        D'.data_vars.find?
          (fun v => v.name = resolveChlNameOut "CHLA1_instr" none) = some vout ∧
        vout.data = ([1, 2] : List ℚ).map (fun x => 2 * x + 3) ∧
        lookupAttr "long_name" vout.attrs =
          some (.str "Chlorophyll-A concentration calibrated against water sample measurements") ∧
        lookupAttr "calibration_formula" vout.attrs =
          some (.str "chla_calibrated = A * chla_from_ctd + B") ∧
        lookupAttr "coefficient_A" vout.attrs = some (.num 2) ∧
        lookupAttr "coefficient_B" vout.attrs = some (.num 3) ∧
        (∀ k, k ≠ "long_name" → k ≠ "calibration_formula" → k ≠ "coefficient_A" →
          k ≠ "coefficient_B" →
          lookupAttr k vout.attrs = lookupAttr k [("units", AttrValue.str "mg m-3")])) ∧
      (("CHLA1_instr" ∈ D'.dataVarNames) ↔ true = false) :=
  calibrate_chl_spec
    (Dataset.mk []
      [{ name := "CHLA1_instr", dims := ["TIME", "PRES"], data := [1, 2],
         attrs := [("units", AttrValue.str "mg m-3")] }] [])
    2 3 "CHLA1_instr" none true
    { name := "CHLA1_instr", dims := ["TIME", "PRES"], data := [1, 2],
      attrs := [("units", AttrValue.str "mg m-3")] }
    rfl (by decide)

end OceanograPy
